import Mathlib

/-
Verification of the script-hosting service core (lua_service) against its
specification.  The repository exposes only the interface declaration
src/moon-src/services/lua_service.h: a class with member declarations and
default member initializers, but no function bodies.  The default member
initializers (trap = 0, mem = 0, mem_limit = numeric_limits<size_t>::max(),
mem_report = 8 * 1024 * 1024, current_sequence_ = 0, cb_ctx = nullptr) are
taken directly from that header; the bodies of lalloc, dispatch,
next_sequence and set_callback are not in the sources and are modelled here
from the specification text (sections 4.1 - 4.4).
-/

namespace Moon

/-- Maximum value of size_t on the 64-bit target platform:
std::numeric_limits<size_t>::max(), the default member initializer of
lua_service::mem_limit in lua_service.h. -/
def USIZE_MAX : Nat := 2 ^ 64 - 1

/-- Outcome reported by dispatch to the host runtime (spec section 6:
delivered / handler-error with description / no-handler / interrupted). -/
inductive Outcome where
  | delivered : Outcome
  | handlerFault : String → Outcome
  | noHandler : Outcome
  | interrupted : Outcome
deriving DecidableEq, Repr

/-- Result of one engine invocation of a script-side handler: the engine
either returns normally or raises a script-level fault with a description;
in both cases it may have mutated the interpreter state (spec 4.4 step 4:
the interpreter instance remains usable afterward, its internal state may
be partially mutated). -/
inductive EngineResult (I : Type) where
  | ok : I → EngineResult I
  | fault : String → I → EngineResult I
deriving DecidableEq, Repr

/-- State of one lua_service instance, mirroring the member fields declared
in lua_service.h.  H is the type of script-side handler references
(callback_context contents), I is the opaque interpreter state (the
lua_State owned through lua_).  trap is the std::atomic_int control word
(0 = Normal, 1 = InterruptRequested, 2 = ForceReclaim per spec section 3). -/
structure lua_service (H I : Type) where
  trap : Int
  mem : Nat
  mem_limit : Nat
  mem_report : Nat
  current_sequence_ : Int
  cb_ctx : Option H
  lua_ : I
deriving Repr

/-- The freshly constructed service: every field carries the default member
initializer written in lua_service.h (trap = 0, mem = 0,
mem_limit = std::numeric_limits<size_t>::max(),
mem_report = 8 * 1024 * 1024, current_sequence_ = 0, cb_ctx = nullptr);
the interpreter state is the freshly created instance i0. -/
def lua_service.construct {H I : Type} (i0 : I) : lua_service H I :=
  { trap := 0
    mem := 0
    mem_limit := USIZE_MAX
    mem_report := 8 * 1024 * 1024
    current_sequence_ := 0
    cb_ctx := none
    lua_ := i0 }

/-- Modelled from the spec: the body of lua_service::next_sequence is not in
the sources (lua_service.h declares it only).  Spec 4.2: returns the next
unused CorrelationId, strictly greater than all previously returned values;
first issued value is 1 (current_sequence_ starts at 0 per the header
initializer).  The field is an int64_t; the spec declares 64-bit overflow an
unspecified fatal-misuse state, so the model uses unbounded Int inside the
specified domain. -/
def next_sequence {H I : Type} (s : lua_service H I) : lua_service H I × Int :=
  ({ s with current_sequence_ := s.current_sequence_ + 1 }, s.current_sequence_ + 1)

/-- Service state after n successive next_sequence calls. -/
def seqState {H I : Type} (s : lua_service H I) : Nat → lua_service H I
  | 0 => s
  | n + 1 => (next_sequence (seqState s n)).1

/-- Value returned by call number n (0-indexed) in a run of successive
next_sequence calls starting from state s. -/
def seqValue {H I : Type} (s : lua_service H I) (n : Nat) : Int :=
  (next_sequence (seqState s n)).2

theorem seqState_current {H I : Type} (s : lua_service H I) :
    ∀ n : Nat, (seqState s n).current_sequence_ = s.current_sequence_ + n := by
  intro n
  induction n with
  | zero => simp [seqState]
  | succ k ih => simp [seqState, next_sequence, ih]; ring

theorem seqValue_eq {H I : Type} (s : lua_service H I) (n : Nat) :
    seqValue s n = s.current_sequence_ + n + 1 := by
  simp [seqValue, next_sequence, seqState_current]

/-- C1: on one freshly constructed service instance, the sequence of values
returned by successive next_sequence calls is strictly increasing and never
repeats, the first returned value is 1, and 0 is never returned. -/
theorem C1_next_sequence_strictly_increasing {H I : Type} (i0 : I) (n m : Nat) :
    seqValue (lua_service.construct (H := H) i0) n = n + 1 ∧
    (n < m →
      seqValue (lua_service.construct (H := H) i0) n <
        seqValue (lua_service.construct (H := H) i0) m) ∧
    seqValue (lua_service.construct (H := H) i0) 0 = 1 ∧
    seqValue (lua_service.construct (H := H) i0) n ≠ 0 := by
  have hval : ∀ k : Nat, seqValue (lua_service.construct (H := H) i0) k = k + 1 := by
    intro k
    rw [seqValue_eq]
    simp [lua_service.construct]
  refine ⟨hval n, ?_, by simpa using hval 0, ?_⟩
  · intro hnm
    rw [hval n, hval m]
    have : (n : Int) < m := by exact_mod_cast hnm
    omega
  · rw [hval n]
    omega

/-- Witness for C1 at n = 0, m = 1: the first two values are 1 and 2. -/
theorem C1_witness :
    seqValue (lua_service.construct (H := Nat) (0 : Nat)) 0 = 0 + 1 ∧
    seqValue (lua_service.construct (H := Nat) (0 : Nat)) 0 <
      seqValue (lua_service.construct (H := Nat) (0 : Nat)) 1 := by
  refine ⟨(C1_next_sequence_strictly_increasing 0 0 1).1, ?_⟩
  exact (C1_next_sequence_strictly_increasing 0 0 1).2.1 (by decide)

/-- Modelled from the spec: the body of the static allocation hook
lua_service::lalloc is not in the sources (lua_service.h declares it only).
Spec 4.1, as a pure accounting policy on the byte count: given the current
live byte count mem, the hard limit mem_limit, the old size and the new
size of the block being operated on, return the new live byte count, or
none to refuse the request.  Free (nsize = 0) always succeeds and
decrements by osize; growth (osize < nsize) is refused without mutating
state when mem + (nsize - osize) would exceed mem_limit; shrink and
same-size resize always succeed. -/
def lalloc (mem mem_limit osize nsize : Nat) : Option Nat :=
  if nsize = 0 then some (mem - osize)
  else if osize < nsize then
    if mem_limit < mem + (nsize - osize) then none
    else some (mem + (nsize - osize))
  else some (mem - (osize - nsize))

theorem lalloc_none_spec (mem mem_limit osize nsize : Nat)
    (h : lalloc mem mem_limit osize nsize = none) :
    osize < nsize ∧ mem_limit < mem + (nsize - osize) := by
  unfold lalloc at h
  by_cases h0 : nsize = 0
  · rw [if_pos h0] at h; exact absurd h (by simp)
  · rw [if_neg h0] at h
    by_cases hg : osize < nsize
    · rw [if_pos hg] at h
      by_cases hl : mem_limit < mem + (nsize - osize)
      · exact ⟨hg, hl⟩
      · rw [if_neg hl] at h; exact absurd h (by simp)
    · rw [if_neg hg] at h; exact absurd h (by simp)

theorem lalloc_some_spec (mem mem_limit osize nsize m2 : Nat)
    (hos : osize ≤ mem) (hml : mem ≤ mem_limit)
    (h : lalloc mem mem_limit osize nsize = some m2) :
    m2 + osize = mem + nsize ∧ m2 ≤ mem_limit := by
  unfold lalloc at h
  by_cases h0 : nsize = 0
  · rw [if_pos h0] at h
    injection h with h
    omega
  · rw [if_neg h0] at h
    by_cases hg : osize < nsize
    · rw [if_pos hg] at h
      by_cases hl : mem_limit < mem + (nsize - osize)
      · rw [if_pos hl] at h; exact absurd h (by simp)
      · rw [if_neg hl] at h
        injection h with h
        omega
    · rw [if_neg hg] at h
      injection h with h
      omega

theorem lalloc_refuses (mem mem_limit osize nsize : Nat)
    (hg : osize < nsize) (hl : mem_limit < mem + (nsize - osize)) :
    lalloc mem mem_limit osize nsize = none := by
  unfold lalloc
  rw [if_neg (by omega : ¬ nsize = 0), if_pos hg, if_pos hl]

/-- State of the memory accountant for one interpreter instance: the byte
count and limits mirror the mem, mem_limit and mem_report fields of
lua_service.h; live is the ghost record of the sizes of the still-live
blocks the accountant has approved, used to state the accounting
invariant. -/
structure MemoryAccountant where
  mem : Nat
  mem_limit : Nat
  mem_report : Nat
  live : List Nat
deriving Repr, DecidableEq

/-- A fresh accountant with a configured limit and report threshold: no
live allocations, mem = 0 (the header initializer of lua_service::mem). -/
def MemoryAccountant.init (limit report : Nat) : MemoryAccountant :=
  { mem := 0, mem_limit := limit, mem_report := report, live := [] }

/-- One request arriving at the allocation hook, phrased against the ghost
list of live blocks so that the old size handed to lalloc is always the
true current size of the operated block: alloc n is a fresh allocation of
n bytes (old size 0); opAt i n resizes live block number i to n bytes,
freeing it when n = 0. -/
inductive AllocOp where
  | alloc : Nat → AllocOp
  | opAt : Nat → Nat → AllocOp
deriving Repr, DecidableEq

/-- Modelled from the spec: threshold-crossing detection of 4.1 - a
notification is emitted exactly when the operation moved the byte count
from below the report threshold to at-or-above it, or from at-or-above it
back to below it (once per crossing, in either direction). -/
def crossed (oldMem newMem threshold : Nat) : Bool :=
  (decide (oldMem < threshold) && decide (threshold ≤ newMem)) ||
    (decide (threshold ≤ oldMem) && decide (newMem < threshold))

/-- Result of one operation through the allocation hook: the new accountant
state, whether the request was approved, and whether a threshold-crossing
notification was emitted to the owner. -/
structure OpResult where
  st : MemoryAccountant
  approved : Bool
  notify : Bool
deriving Repr, DecidableEq

/-- Modelled from the spec: one allocation-hook operation applied to the
accountant.  The byte count moves exactly as lalloc dictates; a refusal
leaves the state untouched; the ghost live list gains, loses or resizes
the operated block on success.  An opAt whose index denotes no live block
corresponds to no engine request at all and is a no-op. -/
def runOp (st : MemoryAccountant) : AllocOp → OpResult
  | .alloc n =>
    match lalloc st.mem st.mem_limit 0 n with
    | none => ⟨st, false, false⟩
    | some m2 =>
      ⟨{ st with
          mem := m2
          live := if n = 0 then st.live else n :: st.live },
        true, crossed st.mem m2 st.mem_report⟩
  | .opAt i n =>
    match st.live[i]? with
    | none => ⟨st, false, false⟩
    | some o =>
      match lalloc st.mem st.mem_limit o n with
      | none => ⟨st, false, false⟩
      | some m2 =>
        ⟨{ st with
            mem := m2
            live := if n = 0 then st.live.eraseIdx i else st.live.set i n },
          true, crossed st.mem m2 st.mem_report⟩

/-- The accountant state after a finite sequence of allocation-hook
operations. -/
def runOps (st : MemoryAccountant) : List AllocOp → MemoryAccountant
  | [] => st
  | op :: ops => runOps (runOp st op).st ops

theorem sum_set_add (l : List Nat) :
    ∀ (i o a : Nat), l[i]? = some o → (l.set i a).sum + o = l.sum + a := by
  induction l with
  | nil => intro i o a h; simp at h
  | cons x xs ih =>
    intro i o a h
    cases i with
    | zero =>
      simp at h
      simp [h]
      omega
    | succ k =>
      simp at h
      have := ih k o a h
      simp
      omega

theorem sum_eraseIdx_add (l : List Nat) :
    ∀ (i o : Nat), l[i]? = some o → (l.eraseIdx i).sum + o = l.sum := by
  induction l with
  | nil => intro i o h; simp at h
  | cons x xs ih =>
    intro i o h
    cases i with
    | zero =>
      simp at h
      simp [List.eraseIdx, h]
      omega
    | succ k =>
      simp at h
      have := ih k o h
      simp [List.eraseIdx]
      omega

theorem getElem?_le_sum (l : List Nat) :
    ∀ (i o : Nat), l[i]? = some o → o ≤ l.sum := by
  induction l with
  | nil => intro i o h; simp at h
  | cons x xs ih =>
    intro i o h
    cases i with
    | zero =>
      simp at h
      simp [h]
    | succ k =>
      simp at h
      have := ih k o h
      simp
      omega

/-- The accounting invariant of spec section 3: the byte count equals the
sum of the sizes of still-live approved blocks and never exceeds the hard
limit. -/
def WF (st : MemoryAccountant) : Prop :=
  st.mem = st.live.sum ∧ st.mem ≤ st.mem_limit

theorem runOp_WF (st : MemoryAccountant) (op : AllocOp) (hwf : WF st) :
    WF (runOp st op).st := by
  obtain ⟨hsum, hle⟩ := hwf
  cases op with
  | alloc n =>
    rcases heq : lalloc st.mem st.mem_limit 0 n with _ | m2
    · simp only [runOp, heq]
      exact ⟨hsum, hle⟩
    · have hspec := lalloc_some_spec _ _ _ _ _ (Nat.zero_le _) hle heq
      simp only [runOp, heq]
      by_cases hn : n = 0
      · subst hn
        refine ⟨?_, hspec.2⟩
        simp
        omega
      · rw [if_neg hn]
        refine ⟨?_, hspec.2⟩
        simp
        omega
  | opAt i n =>
    rcases hget : st.live[i]? with _ | o
    · simp only [runOp, hget]
      exact ⟨hsum, hle⟩
    · have hos : o ≤ st.mem := by
        rw [hsum]; exact getElem?_le_sum st.live i o hget
      rcases heq : lalloc st.mem st.mem_limit o n with _ | m2
      · simp only [runOp, hget, heq]
        exact ⟨hsum, hle⟩
      · have hspec := lalloc_some_spec _ _ _ _ _ hos hle heq
        simp only [runOp, hget, heq]
        by_cases hn : n = 0
        · subst hn
          rw [if_pos rfl]
          refine ⟨?_, hspec.2⟩
          have herase := sum_eraseIdx_add st.live i o hget
          simp
          omega
        · rw [if_neg hn]
          refine ⟨?_, hspec.2⟩
          have hset := sum_set_add st.live i o n hget
          simp
          omega

theorem runOp_mem_limit (st : MemoryAccountant) (op : AllocOp) :
    (runOp st op).st.mem_limit = st.mem_limit := by
  cases op with
  | alloc n =>
    rcases heq : lalloc st.mem st.mem_limit 0 n with _ | m2 <;>
      simp [runOp, heq]
  | opAt i n =>
    rcases hget : st.live[i]? with _ | o
    · simp [runOp, hget]
    · rcases heq : lalloc st.mem st.mem_limit o n with _ | m2 <;>
        simp [runOp, hget, heq]

theorem runOps_WF (st : MemoryAccountant) (ops : List AllocOp) (hwf : WF st) :
    WF (runOps st ops) := by
  induction ops generalizing st with
  | nil => simpa [runOps] using hwf
  | cons op ops ih =>
    simp only [runOps]
    exact ih _ (runOp_WF st op hwf)

theorem runOps_mem_limit (st : MemoryAccountant) (ops : List AllocOp) :
    (runOps st ops).mem_limit = st.mem_limit := by
  induction ops generalizing st with
  | nil => simp [runOps]
  | cons op ops ih =>
    simp only [runOps]
    rw [ih, runOp_mem_limit]

/-- C3: after every finite sequence of operations through the allocation
hook starting from a fresh accountant, the byte count equals the exact sum
of the sizes of the still-live approved blocks, and it never exceeds the
hard limit. -/
theorem C3_accounting_invariant (limit report : Nat) (ops : List AllocOp) :
    (runOps (MemoryAccountant.init limit report) ops).mem =
      (runOps (MemoryAccountant.init limit report) ops).live.sum ∧
    (runOps (MemoryAccountant.init limit report) ops).mem ≤ limit := by
  have hwf : WF (MemoryAccountant.init limit report) := by
    constructor <;> simp [MemoryAccountant.init]
  obtain ⟨h1, h2⟩ := runOps_WF (MemoryAccountant.init limit report) ops hwf
  have hlim : (runOps (MemoryAccountant.init limit report) ops).mem_limit = limit :=
    runOps_mem_limit (MemoryAccountant.init limit report) ops
  exact ⟨h1, by omega⟩

theorem runOp_refused_unchanged (st : MemoryAccountant) (op : AllocOp)
    (h : (runOp st op).approved = false) : runOp st op = ⟨st, false, false⟩ := by
  cases op with
  | alloc n =>
    rcases heq : lalloc st.mem st.mem_limit 0 n with _ | m2
    · simp [runOp, heq]
    · simp [runOp, heq] at h
  | opAt i n =>
    rcases hget : st.live[i]? with _ | o
    · simp [runOp, hget]
    · rcases heq : lalloc st.mem st.mem_limit o n with _ | m2
      · simp [runOp, hget, heq]
      · simp [runOp, hget, heq] at h

/-- C2: a request that grows a block past the hard limit (nsize > osize
and mem + (nsize - osize) > mem_limit) is refused by the allocation hook
and leaves the accountant state, its byte count included, unchanged: both
for a fresh allocation (osize = 0) and for a resize of live block i of
current size osize. -/
theorem C2_limit_refusal (st : MemoryAccountant) (osize nsize i : Nat)
    (hg : osize < nsize) (hl : st.mem_limit < st.mem + (nsize - osize)) :
    lalloc st.mem st.mem_limit osize nsize = none ∧
    (osize = 0 → runOp st (AllocOp.alloc nsize) = ⟨st, false, false⟩) ∧
    (st.live[i]? = some osize → runOp st (AllocOp.opAt i nsize) = ⟨st, false, false⟩) := by
  have hnone := lalloc_refuses st.mem st.mem_limit osize nsize hg hl
  refine ⟨hnone, ?_, ?_⟩
  · intro h0
    subst h0
    simp [runOp, hnone]
  · intro hget
    simp [runOp, hget, hnone]

/-- Witness for C2: with hard limit 1024 and byte count 0, a resize from 0
to 2048 bytes is refused, is not a notification, and the state (its byte
count 0 included) is unchanged. -/
theorem C2_witness :
    lalloc 0 1024 0 2048 = none ∧
    runOp { mem := 0, mem_limit := 1024, mem_report := 8388608, live := [] }
        (AllocOp.alloc 2048) =
      ⟨{ mem := 0, mem_limit := 1024, mem_report := 8388608, live := [] },
        false, false⟩ := by
  have h := C2_limit_refusal
    { mem := 0, mem_limit := 1024, mem_report := 8388608, live := [] }
    0 2048 0 (by decide) (by decide)
  exact ⟨h.1, h.2.1 rfl⟩

theorem crossed_eq_true_iff (a b t : Nat) :
    crossed a b t = true ↔ ((a < t ∧ t ≤ b) ∨ (t ≤ a ∧ b < t)) := by
  simp [crossed]

theorem crossed_self (m t : Nat) : crossed m m t = false := by
  simp [crossed]

theorem runOp_notify_eq (st : MemoryAccountant) (op : AllocOp) :
    (runOp st op).notify = crossed st.mem (runOp st op).st.mem st.mem_report := by
  cases op with
  | alloc n =>
    rcases heq : lalloc st.mem st.mem_limit 0 n with _ | m2
    · simp [runOp, heq, crossed_self]
    · simp [runOp, heq]
  | opAt i n =>
    rcases hget : st.live[i]? with _ | o
    · simp [runOp, hget, crossed_self]
    · rcases heq : lalloc st.mem st.mem_limit o n with _ | m2
      · simp [runOp, hget, heq, crossed_self]
      · simp [runOp, hget, heq]

/-- C4: threshold notifications are emitted exactly once per upward
crossing: an operation moving the byte count from below the report
threshold to at-or-above it emits a notification; an operation that starts
and ends at-or-above the threshold emits none; and an operation ending
at-or-above the threshold emits one exactly when it started below it, so a
new upward notification requires the byte count to have dropped back below
the threshold first. -/
theorem C4_threshold_once_per_crossing (st : MemoryAccountant) (op : AllocOp) :
    (st.mem < st.mem_report → st.mem_report ≤ (runOp st op).st.mem →
      (runOp st op).notify = true) ∧
    (st.mem_report ≤ st.mem → st.mem_report ≤ (runOp st op).st.mem →
      (runOp st op).notify = false) ∧
    (st.mem_report ≤ (runOp st op).st.mem →
      ((runOp st op).notify = true ↔ st.mem < st.mem_report)) := by
  rw [runOp_notify_eq]
  refine ⟨?_, ?_, ?_⟩
  · intro h1 h2
    rw [crossed_eq_true_iff]
    exact Or.inl ⟨h1, h2⟩
  · intro h1 h2
    rw [Bool.eq_false_iff, Ne, crossed_eq_true_iff]
    rintro (⟨ha, _⟩ | ⟨_, hb⟩) <;> omega
  · intro h2
    rw [crossed_eq_true_iff]
    constructor
    · rintro (⟨ha, _⟩ | ⟨_, hb⟩)
      · exact ha
      · omega
    · intro h1
      exact Or.inl ⟨h1, h2⟩

/-- Witness for C4: with threshold 10, an allocation taking the byte count
from 0 to 20 crosses upward and emits a notification; a further allocation
taking it from 20 to 25 stays above and emits none. -/
theorem C4_witness :
    (runOp { mem := 0, mem_limit := 100, mem_report := 10, live := [] }
      (AllocOp.alloc 20)).notify = true ∧
    (runOp { mem := 20, mem_limit := 100, mem_report := 10, live := [20] }
      (AllocOp.alloc 5)).notify = false := by
  constructor
  · exact (C4_threshold_once_per_crossing
      { mem := 0, mem_limit := 100, mem_report := 10, live := [] }
      (AllocOp.alloc 20)).1 (by decide) (by decide)
  · exact (C4_threshold_once_per_crossing
      { mem := 20, mem_limit := 100, mem_report := 10, live := [20] }
      (AllocOp.alloc 5)).2.1 (by decide) (by decide)

/-- C9: absent a configured memory limit the hard limit defaults to the
maximum value of size_t (the header initializer of mem_limit), and under
that default the limit-refusal branch of the allocation-hook policy is
unreachable: a refusal would require the updated byte count
mem + (nsize - osize) to reach 2 ^ 64, that is, the size arithmetic itself
to overflow 64-bit size_t. -/
theorem C9_default_limit_unreachable {H I : Type} (i0 : I) (mem osize nsize : Nat)
    (h : lalloc mem USIZE_MAX osize nsize = none) :
    (lua_service.construct (H := H) i0).mem_limit = USIZE_MAX ∧
    2 ^ 64 ≤ mem + (nsize - osize) := by
  refine ⟨rfl, ?_⟩
  have hspec := lalloc_none_spec mem USIZE_MAX osize nsize h
  have hmax : USIZE_MAX = 18446744073709551615 := by norm_num [USIZE_MAX]
  have hpow : (2 : Nat) ^ 64 = 18446744073709551616 := by norm_num
  omega

/-- Witness for C9 at the smallest overflowing request: byte count 2 ^ 64
with a fresh allocation of 1 byte is refused under the default limit, and
indeed overflows size_t. -/
theorem C9_witness :
    (lua_service.construct (H := Nat) (0 : Nat)).mem_limit = USIZE_MAX ∧
    2 ^ 64 ≤ 2 ^ 64 + (1 - 0) :=
  C9_default_limit_unreachable (H := Nat) 0 (2 ^ 64) 0 1 (by decide)

/-- Everything one dispatch call yields: the service state afterwards, the
outcome reported to the host runtime, which handler reference (if any) was
invoked in the engine, and whether a forced reclamation pass preceded the
call. -/
structure DispatchResult (H I : Type) where
  state : lua_service H I
  outcome : Outcome
  invoked : Option H
  reclaimed : Bool

/-- Modelled from the spec: steps 2 - 5 of the dispatch protocol of 4.4,
entered after the trap signal has been handled.  Resolve the current
handler (cb_ctx); with none registered fail with NoHandler; otherwise
invoke it in the engine, catching a script-level fault at this boundary
and converting it into the HandlerFault outcome, the interpreter state
moving to whatever the engine left behind.  eng is the opaque execution
engine: it maps a handler reference, a message and the interpreter state
to the invocation result. -/
def dispatchCore {H I M : Type} (eng : H → M → I → EngineResult I)
    (s1 : lua_service H I) (m : M) : DispatchResult H I :=
  if s1.trap = 1 then ⟨s1, Outcome.interrupted, none, false⟩
  else
    match s1.cb_ctx with
    | none => ⟨s1, Outcome.noHandler, none, false⟩
    | some h =>
      match eng h m s1.lua_ with
      | EngineResult.ok i2 =>
        ⟨{ s1 with lua_ := i2 }, Outcome.delivered, some h, false⟩
      | EngineResult.fault d i2 =>
        ⟨{ s1 with lua_ := i2 }, Outcome.handlerFault d, some h, false⟩

/-- Modelled from the spec: the body of lua_service::dispatch is not in the
sources (lua_service.h declares it only).  Step 1 of 4.4: consult the trap
word; on ForceReclaim (2) run a reclamation pass gc on the interpreter and
reset the trap to Normal before proceeding; on InterruptRequested (1) skip
invocation and report the message undelivered due to interruption; then
proceed with handler resolution and invocation (dispatchCore). -/
def dispatch {H I M : Type} (eng : H → M → I → EngineResult I) (gc : I → I)
    (s : lua_service H I) (m : M) : DispatchResult H I :=
  if s.trap = 2 then
    { dispatchCore eng { s with lua_ := gc s.lua_, trap := 0 } m with
        reclaimed := true }
  else dispatchCore eng s m

/-- Modelled from the spec: the body of the native-callable
lua_service::set_callback is not in the sources (lua_service.h declares it
only).  Spec 4.3 and 4.4: replaces the single script-side dispatch handler,
releasing the previous one; always succeeds. -/
def set_callback {H I : Type} (s : lua_service H I) (h : H) : lua_service H I :=
  { s with cb_ctx := some h }

/-- A run of successive dispatch calls: final service state together with
the list of handler references that were actually invoked, in order. -/
def runDispatches {H I M : Type} (eng : H → M → I → EngineResult I)
    (gc : I → I) : lua_service H I → List M → lua_service H I × List H
  | s, [] => (s, [])
  | s, m :: ms =>
    let r := dispatch eng gc s m
    let rest := runDispatches eng gc r.state ms
    (rest.1, r.invoked.toList ++ rest.2)

theorem dispatchCore_cb_ctx {H I M : Type} (eng : H → M → I → EngineResult I)
    (s1 : lua_service H I) (m : M) :
    (dispatchCore eng s1 m).state.cb_ctx = s1.cb_ctx := by
  unfold dispatchCore
  by_cases h1 : s1.trap = 1
  · rw [if_pos h1]
  · rw [if_neg h1]
    rcases hc : s1.cb_ctx with _ | hh
    · simp [hc]
    · rcases he : eng hh m s1.lua_ with i2 | ⟨d, i2⟩ <;> simp [he, hc]

theorem dispatchCore_trap {H I M : Type} (eng : H → M → I → EngineResult I)
    (s1 : lua_service H I) (m : M) :
    (dispatchCore eng s1 m).state.trap = s1.trap := by
  unfold dispatchCore
  by_cases h1 : s1.trap = 1
  · rw [if_pos h1]
  · rw [if_neg h1]
    rcases hc : s1.cb_ctx with _ | hh
    · simp
    · rcases he : eng hh m s1.lua_ with i2 | ⟨d, i2⟩ <;> simp [he]

theorem dispatchCore_invoked {H I M : Type} (eng : H → M → I → EngineResult I)
    (s1 : lua_service H I) (m : M) (hh : H)
    (h : (dispatchCore eng s1 m).invoked = some hh) : s1.cb_ctx = some hh := by
  unfold dispatchCore at h
  by_cases h1 : s1.trap = 1
  · rw [if_pos h1] at h
    exact absurd h (by simp)
  · rw [if_neg h1] at h
    rcases hc : s1.cb_ctx with _ | hx
    · rw [hc] at h
      simp at h
    · rw [hc] at h
      simp only [] at h
      rcases he : eng hx m s1.lua_ with i2 | ⟨d, i2⟩ <;> simp [he] at h <;>
        simp [h]

theorem dispatch_cb_ctx {H I M : Type} (eng : H → M → I → EngineResult I)
    (gc : I → I) (s : lua_service H I) (m : M) :
    (dispatch eng gc s m).state.cb_ctx = s.cb_ctx := by
  unfold dispatch
  by_cases h2 : s.trap = 2
  · rw [if_pos h2]
    simpa using dispatchCore_cb_ctx eng { s with lua_ := gc s.lua_, trap := 0 } m
  · rw [if_neg h2]
    exact dispatchCore_cb_ctx eng s m

theorem dispatch_invoked {H I M : Type} (eng : H → M → I → EngineResult I)
    (gc : I → I) (s : lua_service H I) (m : M) (hh : H)
    (h : (dispatch eng gc s m).invoked = some hh) : s.cb_ctx = some hh := by
  unfold dispatch at h
  by_cases h2 : s.trap = 2
  · rw [if_pos h2] at h
    simpa using dispatchCore_invoked eng { s with lua_ := gc s.lua_, trap := 0 } m hh (by simpa using h)
  · rw [if_neg h2] at h
    exact dispatchCore_invoked eng s m hh h

theorem dispatchCore_not_interrupted {H I M : Type} (eng : H → M → I → EngineResult I)
    (s1 : lua_service H I) (m : M) (h1 : s1.trap ≠ 1) :
    (dispatchCore eng s1 m).outcome ≠ Outcome.interrupted := by
  unfold dispatchCore
  rw [if_neg h1]
  rcases hc : s1.cb_ctx with _ | hh
  · simp
  · rcases he : eng hh m s1.lua_ with i2 | ⟨d, i2⟩ <;> simp [he]

theorem dispatch_not_interrupted {H I M : Type} (eng : H → M → I → EngineResult I)
    (gc : I → I) (s : lua_service H I) (m : M) (h1 : s.trap ≠ 1) :
    (dispatch eng gc s m).outcome ≠ Outcome.interrupted := by
  unfold dispatch
  by_cases h2 : s.trap = 2
  · rw [if_pos h2]
    simpa using dispatchCore_not_interrupted eng
      { s with lua_ := gc s.lua_, trap := 0 } m (by simp)
  · rw [if_neg h2]
    exact dispatchCore_not_interrupted eng s m h1

theorem dispatchCore_reclaimed {H I M : Type} (eng : H → M → I → EngineResult I)
    (s1 : lua_service H I) (m : M) :
    (dispatchCore eng s1 m).reclaimed = false := by
  unfold dispatchCore
  by_cases h1 : s1.trap = 1
  · rw [if_pos h1]
  · rw [if_neg h1]
    rcases hc : s1.cb_ctx with _ | hh
    · simp [hc]
    · rcases he : eng hh m s1.lua_ with i2 | ⟨d, i2⟩ <;> simp [hc, he]

/-- C5 fails as stated: the universal claim ignores the trap signal, which
the dispatch protocol consults before handler resolution.  With no handler
registered but the trap word at InterruptRequested (1), dispatch reports
Interrupted, not NoHandler; with the trap word at ForceReclaim (2), the
reclamation pass mutates the interpreter state even though no handler is
registered. -/
theorem C5_counterexample :
    (⟨1, 0, 1024, 8388608, 0, none, 0⟩ : lua_service Nat Nat).cb_ctx = none ∧
    (dispatch (fun (_ : Nat) (_ : Nat) (i : Nat) => EngineResult.ok i) (fun i => i + 1)
      (⟨1, 0, 1024, 8388608, 0, none, 0⟩ : lua_service Nat Nat) 0).outcome =
      Outcome.interrupted ∧
    Outcome.interrupted ≠ Outcome.noHandler ∧
    (⟨2, 0, 1024, 8388608, 0, none, 0⟩ : lua_service Nat Nat).cb_ctx = none ∧
    (dispatch (fun (_ : Nat) (_ : Nat) (i : Nat) => EngineResult.ok i) (fun i => i + 1)
      (⟨2, 0, 1024, 8388608, 0, none, 0⟩ : lua_service Nat Nat) 0).state.lua_ ≠
      (⟨2, 0, 1024, 8388608, 0, none, 0⟩ : lua_service Nat Nat).lua_ := by
  decide

/-- C5 (amended): a dispatch call made while no handler is registered and
while the trap signal is neither InterruptRequested (1) nor
ForceReclaim (2) reports NoHandler, invokes no handler, performs no
reclamation pass, and leaves the whole service state, the interpreter
included, unchanged. -/
theorem C5_noHandler_amended {H I M : Type} (eng : H → M → I → EngineResult I)
    (gc : I → I) (s : lua_service H I) (m : M)
    (hcb : s.cb_ctx = none) (h1 : s.trap ≠ 1) (h2 : s.trap ≠ 2) :
    (dispatch eng gc s m).outcome = Outcome.noHandler ∧
    (dispatch eng gc s m).invoked = none ∧
    (dispatch eng gc s m).state = s ∧
    (dispatch eng gc s m).reclaimed = false := by
  unfold dispatch
  rw [if_neg h2]
  unfold dispatchCore
  rw [if_neg h1, hcb]
  simp

/-- Witness for C5 (amended) on a fresh-looking state with trap 0 and no
handler: NoHandler, no invocation, state untouched. -/
theorem C5_witness :
    (dispatch (fun (_ : Nat) (_ : Nat) (i : Nat) => EngineResult.ok i) (fun i => i + 1)
      (⟨0, 0, 1024, 8388608, 0, none, 7⟩ : lua_service Nat Nat) 0).outcome =
      Outcome.noHandler ∧
    (dispatch (fun (_ : Nat) (_ : Nat) (i : Nat) => EngineResult.ok i) (fun i => i + 1)
      (⟨0, 0, 1024, 8388608, 0, none, 7⟩ : lua_service Nat Nat) 0).invoked = none ∧
    (dispatch (fun (_ : Nat) (_ : Nat) (i : Nat) => EngineResult.ok i) (fun i => i + 1)
      (⟨0, 0, 1024, 8388608, 0, none, 7⟩ : lua_service Nat Nat) 0).state =
      (⟨0, 0, 1024, 8388608, 0, none, 7⟩ : lua_service Nat Nat) ∧
    (dispatch (fun (_ : Nat) (_ : Nat) (i : Nat) => EngineResult.ok i) (fun i => i + 1)
      (⟨0, 0, 1024, 8388608, 0, none, 7⟩ : lua_service Nat Nat) 0).reclaimed = false :=
  C5_noHandler_amended _ _ _ _ rfl (by decide) (by decide)

/-- C6: a dispatch call beginning with the trap word at
InterruptRequested (1) reports Interrupted and performs no handler
invocation; once the trap word is reset to Normal (0), the next dispatch
call is not reported Interrupted. -/
theorem C6_interrupt_then_resume {H I M : Type}
    (eng eng2 : H → M → I → EngineResult I) (gc : I → I)
    (s : lua_service H I) (m m2 : M) (h : s.trap = 1) :
    (dispatch eng gc s m).outcome = Outcome.interrupted ∧
    (dispatch eng gc s m).invoked = none ∧
    (dispatch eng2 gc { (dispatch eng gc s m).state with trap := 0 } m2).outcome ≠
      Outcome.interrupted := by
  have h2 : s.trap ≠ 2 := by rw [h]; decide
  refine ⟨?_, ?_, ?_⟩
  · unfold dispatch
    rw [if_neg h2]
    unfold dispatchCore
    rw [if_pos h]
  · unfold dispatch
    rw [if_neg h2]
    unfold dispatchCore
    rw [if_pos h]
  · exact dispatch_not_interrupted eng2 gc _ m2 (by simp)

/-- Witness for C6 on a concrete state with trap 1: the call is
interrupted with no invocation, and after the trap is reset to 0 the next
call is not interrupted. -/
theorem C6_witness :
    (dispatch (fun (_ : Nat) (_ : Nat) (i : Nat) => EngineResult.ok i) (fun i => i + 1)
      (⟨1, 0, 1024, 8388608, 0, some 5, 7⟩ : lua_service Nat Nat) 0).outcome =
      Outcome.interrupted ∧
    (dispatch (fun (_ : Nat) (_ : Nat) (i : Nat) => EngineResult.ok i) (fun i => i + 1)
      (⟨1, 0, 1024, 8388608, 0, some 5, 7⟩ : lua_service Nat Nat) 0).invoked = none ∧
    (dispatch (fun (_ : Nat) (_ : Nat) (i : Nat) => EngineResult.ok i) (fun i => i + 1)
      { (dispatch (fun (_ : Nat) (_ : Nat) (i : Nat) => EngineResult.ok i) (fun i => i + 1)
          (⟨1, 0, 1024, 8388608, 0, some 5, 7⟩ : lua_service Nat Nat) 0).state with
          trap := 0 } 1).outcome ≠ Outcome.interrupted :=
  C6_interrupt_then_resume _ _ _ _ 0 1 rfl

/-- C7: a script-level fault raised by the engine during invocation is
caught at the dispatch boundary and reported as HandlerFault carrying the
fault description (dispatch stays a total function, so nothing propagates
past it), and a subsequent dispatch on the same instance whose invocation
returns normally still reports Delivered. -/
theorem C7_handler_fault_contained {H I M : Type}
    (eng eng2 : H → M → I → EngineResult I) (gc : I → I)
    (s : lua_service H I) (m m2 : M) (h : H) (d : String) (i2 : I)
    (h1 : s.trap ≠ 1) (h2 : s.trap ≠ 2) (hcb : s.cb_ctx = some h)
    (hf : eng h m s.lua_ = EngineResult.fault d i2) :
    (dispatch eng gc s m).outcome = Outcome.handlerFault d ∧
    (∀ i3 : I, eng2 h m2 i2 = EngineResult.ok i3 →
      (dispatch eng2 gc (dispatch eng gc s m).state m2).outcome =
        Outcome.delivered) := by
  have hdis : dispatch eng gc s m =
      ⟨{ s with lua_ := i2 }, Outcome.handlerFault d, some h, false⟩ := by
    unfold dispatch
    rw [if_neg h2]
    unfold dispatchCore
    rw [if_neg h1, hcb]
    simp [hf]
  constructor
  · rw [hdis]
  · intro i3 hok
    rw [hdis]
    show (dispatch eng2 gc { s with lua_ := i2 } m2).outcome = Outcome.delivered
    unfold dispatch
    rw [if_neg (by simpa using h2)]
    unfold dispatchCore
    rw [if_neg (by simpa using h1)]
    simp [hcb, hok]

/-- Witness for C7: a faulting invocation on a concrete service reports
the fault description, and the next call with a normally returning engine
reports Delivered. -/
theorem C7_witness :
    (dispatch (fun (_ : Nat) (_ : Nat) (i : Nat) => EngineResult.fault "boom" i)
      (fun i => i + 1)
      (⟨0, 0, 1024, 8388608, 0, some 5, 7⟩ : lua_service Nat Nat) 0).outcome =
      Outcome.handlerFault "boom" ∧
    (dispatch (fun (_ : Nat) (_ : Nat) (i : Nat) => EngineResult.ok i) (fun i => i + 1)
      (dispatch (fun (_ : Nat) (_ : Nat) (i : Nat) => EngineResult.fault "boom" i)
        (fun i => i + 1)
        (⟨0, 0, 1024, 8388608, 0, some 5, 7⟩ : lua_service Nat Nat) 0).state 1).outcome =
      Outcome.delivered := by
  have hc := C7_handler_fault_contained
    (fun (_ : Nat) (_ : Nat) (i : Nat) => EngineResult.fault "boom" i)
    (fun (_ : Nat) (_ : Nat) (i : Nat) => EngineResult.ok i) (fun i => i + 1)
    (⟨0, 0, 1024, 8388608, 0, some 5, 7⟩ : lua_service Nat Nat) 0 1 5 "boom" 7
    (by decide) (by decide) rfl rfl
  exact ⟨hc.1, hc.2 7 rfl⟩

theorem runDispatches_invoked {H I M : Type} (eng : H → M → I → EngineResult I)
    (gc : I → I) (h : H) :
    ∀ (msgs : List M) (s : lua_service H I), s.cb_ctx = some h →
      ∀ x ∈ (runDispatches eng gc s msgs).2, x = h := by
  intro msgs
  induction msgs with
  | nil =>
    intro s hcb x hx
    simp [runDispatches] at hx
  | cons m ms ih =>
    intro s hcb x hx
    simp only [runDispatches, List.mem_append] at hx
    rcases hx with hx | hx
    · have hinv : (dispatch eng gc s m).invoked = some x := by
        rcases ho : (dispatch eng gc s m).invoked with _ | y
        · rw [ho] at hx
          simp at hx
        · rw [ho] at hx
          simp at hx
          rw [hx]
      have hsome := dispatch_invoked eng gc s m x hinv
      rw [hcb] at hsome
      exact (Option.some_inj.mp hsome).symm
    · exact ih (dispatch eng gc s m).state
        (by rw [dispatch_cb_ctx]; exact hcb) x hx

/-- C8: set_callback always succeeds and replaces the single registered
handler: after set_callback h1 then set_callback h2, the registered
handler is h2, every handler invocation in any subsequent run of dispatch
calls invokes h2, and when h1 differs from h2 no invocation ever invokes
h1. -/
theorem C8_set_callback_replaces {H I M : Type} (eng : H → M → I → EngineResult I)
    (gc : I → I) (s : lua_service H I) (h1 h2 : H) (msgs : List M) :
    (set_callback (set_callback s h1) h2).cb_ctx = some h2 ∧
    (∀ x ∈ (runDispatches eng gc (set_callback (set_callback s h1) h2) msgs).2,
      x = h2) ∧
    (h1 ≠ h2 →
      h1 ∉ (runDispatches eng gc (set_callback (set_callback s h1) h2) msgs).2) := by
  have hall := runDispatches_invoked eng gc h2 msgs
    (set_callback (set_callback s h1) h2) rfl
  refine ⟨rfl, hall, ?_⟩
  intro hne hmem
  exact hne (hall h1 hmem)

/-- Witness for C8 with handlers 1 then 2 and one dispatched message: the
registered handler is 2, handler 1 is never invoked, and the one recorded
invocation is of handler 2. -/
theorem C8_witness :
    (set_callback (set_callback (⟨0, 0, 1024, 8388608, 0, none, 7⟩ : lua_service Nat Nat)
      1) 2).cb_ctx = some 2 ∧
    (1 : Nat) ∉ (runDispatches (fun (_ : Nat) (_ : Nat) (i : Nat) => EngineResult.ok i)
      (fun i => i + 1)
      (set_callback (set_callback (⟨0, 0, 1024, 8388608, 0, none, 7⟩ : lua_service Nat Nat)
        1) 2) [0]).2 ∧
    (2 : Nat) = 2 := by
  have hc := C8_set_callback_replaces
    (fun (_ : Nat) (_ : Nat) (i : Nat) => EngineResult.ok i) (fun i => i + 1)
    (⟨0, 0, 1024, 8388608, 0, none, 7⟩ : lua_service Nat Nat) 1 2 [0]
  exact ⟨hc.1, hc.2.2 (by decide), hc.2.1 2 (by decide)⟩

/-- C10: the trap word carries the header initializer 0 (Normal) at
construction, so the first dispatch call on a freshly constructed service
is neither reported Interrupted nor preceded by a forced reclamation
pass. -/
theorem C10_fresh_trap_normal {H I M : Type} (eng : H → M → I → EngineResult I)
    (gc : I → I) (i0 : I) (m : M) :
    (lua_service.construct (H := H) i0).trap = 0 ∧
    (dispatch eng gc (lua_service.construct (H := H) i0) m).outcome ≠
      Outcome.interrupted ∧
    (dispatch eng gc (lua_service.construct (H := H) i0) m).reclaimed = false := by
  have htrap : (lua_service.construct (H := H) i0).trap = 0 := rfl
  refine ⟨rfl, dispatch_not_interrupted eng gc _ m (by rw [htrap]; decide), ?_⟩
  unfold dispatch
  rw [if_neg (by rw [htrap]; decide)]
  exact dispatchCore_reclaimed eng _ m

end Moon
